import Mathlib

/-!
Verification of the Slack-LLM-AWS-MCP repository core.

Shallow embedding of:
* `src/aws_mcp_server.py` — the SQL statement guard (`SQL_BLOCK`, `athena_query`),
  the Athena job poller and result parsing (`athena_results`);
* `src/llm_bot.py` — the MCP result extractor (`extract_tool_result`) and the
  tool-orchestration loop (`call_llm_with_tools`).

Python strings are modelled as `List Char`; external effects (the Athena
backend, the model host, the MCP tool host, the wall clock) are modelled as
explicit streams passed in as parameters.  JSON values are modelled by an
inductive type with an executable decoder and encoder mirroring `json.loads`
and `json.dumps` on the fragments the code exercises.
-/

/-- Python `str` is modelled as a list of characters. -/
abbrev Str := List Char

/-- ASCII-only predicate: the embedding of `re`'s word/character classes is
faithful to Python on ASCII input. -/
def asciiOnly (s : Str) : Bool := s.all (fun c => c.toNat < 128)

/-- Python `str.lower` (ASCII fragment). -/
def lowerStr (s : Str) : Str := s.map Char.toLower

/-- Python `sep.join(xs)`. -/
def joinSep (sep : Str) : List Str → Str
  | [] => []
  | [x] => x
  | x :: y :: xs => x ++ sep ++ joinSep sep (y :: xs)

/-- Python `"\n".join(xs)`, used for assembling text answers. -/
def joinNL (xs : List Str) : Str := joinSep ['\n'] xs

/-- Python `pat in s` (contiguous substring test). -/
def hasSubstr : Str → Str → Bool
  | [], pat => pat.isEmpty
  | s@(_ :: rest), pat => List.isPrefixOf pat s || hasSubstr rest pat

/-! ## SQL statement guard (`src/aws_mcp_server.py`, lines 13 and 20–30)

`SQL_BLOCK = re.compile(r"\b(INSERT|UPDATE|DELETE|DROP|ALTER|TRUNCATE|CREATE|MSCK|GRANT|REVOKE)\b", re.I)`
-/

/-- A `\w` word character of Python `re` (ASCII fragment): letters, digits, underscore. -/
def isWordChar (c : Char) : Bool := c.isAlphanum || c = '_'

/-- `\b` boundary condition against the neighbouring character (if any). -/
def boundaryOk : Option Char → Bool
  | none => true
  | some c => !isWordChar c

/-- The alternatives of the `SQL_BLOCK` regular expression. -/
def SQL_BLOCK_words : List Str :=
  ["INSERT", "UPDATE", "DELETE", "DROP", "ALTER", "TRUNCATE", "CREATE",
   "MSCK", "GRANT", "REVOKE"].map String.data

/-- One alternative of `SQL_BLOCK` matches in `s` at position `i`: the next
`w.length` characters equal `w` up to case, with `\b` boundaries on both sides. -/
def wordMatchAt (s : Str) (i : Nat) (w : Str) : Bool :=
  decide (lowerStr ((s.drop i).take w.length) = lowerStr w)
  && boundaryOk (s.take i).getLast?
  && boundaryOk (s.drop (i + w.length)).head?

/-- `SQL_BLOCK.search(sql)` is truthy: some alternative matches at some position. -/
def SQL_BLOCK_search (s : Str) : Bool :=
  (List.range (s.length + 1)).any fun i => SQL_BLOCK_words.any fun w => wordMatchAt s i w

/-- Spec-side predicate, following the claim's words: the statement contains one
of the blocked tokens as a whole word, in any letter case, anywhere in the text. -/
def HasBlockedWord (s : Str) : Prop :=
  ∃ w pre tok suf, w ∈ SQL_BLOCK_words ∧ s = pre ++ tok ++ suf ∧
    lowerStr tok = lowerStr w ∧
    boundaryOk pre.getLast? = true ∧ boundaryOk suf.head? = true

/-- Outcome of `athena_query`: either the `ValueError` is raised, or a result
dictionary is returned. -/
inductive QueryRes
  | rejected (msg : Str)
  | submitted (queryExecutionId : Str)
deriving DecidableEq, Repr

/-- The `ValueError` message raised by the guard. -/
def onlySelectMsg : Str := ("Only SELECT/EXPLAIN allowed.").data

/-- `athena_query(sql)` of `src/aws_mcp_server.py`.  `qexecId` models the
`QueryExecutionId` the backend would return.  The second component is the list
of `QueryString` arguments passed to `start_query_execution` during the call,
so `[]` means no backend call was attempted. -/
def athena_query (qexecId : Str) (sql : Str) : QueryRes × List Str :=
  if SQL_BLOCK_search sql then (.rejected onlySelectMsg, [])
  else (.submitted qexecId, [sql])

/-! ## Athena poller and result parsing (`src/aws_mcp_server.py`, lines 36–65) -/

/-- One `get_query_execution` observation: the `Status.State` string, the
optional `StateChangeReason`, and the wall-clock elapsed time (`time() - start`)
the poller would read in that iteration. -/
structure PollObs where
  state : Str
  reason : Option Str
  elapsed : Nat
deriving Repr

/-- Outcome of the polling loop of `athena_results`. -/
inductive PollRes
  | success (iters : Nat)
  | remoteFailure (msg : Str)
  | timeoutErr (msg : Str)
  | spin
deriving DecidableEq, Repr

/-- The `TimeoutError` message. -/
def timedOutMsg : Str := ("Athena query timed out").data

/-- The `RuntimeError` message `f"Athena {st}: {reason}"`. -/
def remoteFailMsg (st : Str) (reason : Option Str) : Str :=
  ("Athena ").data ++ st ++ (": ").data ++ reason.getD []

/-- The `while True` polling loop of `athena_results` (lines 50–59): fetch the
job status; break on `SUCCEEDED`; raise on `FAILED`/`CANCELLED`; raise
`TimeoutError` when elapsed wall clock exceeds `max_wait_s`; otherwise sleep and
poll again.  `fuel` bounds the unrolling of the source's unbounded loop; `.spin`
is returned only when fuel runs out, which is not a behaviour of the code. -/
def pollLoop (obs : Nat → PollObs) (max_wait_s : Nat) : Nat → Nat → PollRes
  | 0, _ => .spin
  | fuel + 1, i =>
    let o := obs i
    if o.state = ("SUCCEEDED").data then .success i
    else if o.state = ("FAILED").data ∨ o.state = ("CANCELLED").data then
      .remoteFailure (remoteFailMsg o.state o.reason)
    else if max_wait_s < o.elapsed then .timeoutErr timedOutMsg
    else pollLoop obs max_wait_s fuel (i + 1)

/-- One fetched result cell: `Some v` when the datum carries a `VarCharValue`. -/
abbrev Cell := Option Str

/-- Lines 62–65 of `athena_results`: the first fetched row is the header
(missing cells become `""`), the remaining rows are the data (missing cells stay
null). -/
def parse_results (rows : List (List Cell)) : List Str × List (List Cell) :=
  let headers := if h : rows ≠ [] then (rows.head h).map (fun c => c.getD []) else []
  let data := if 1 < rows.length then (rows.drop 1).map (fun r => r.map (fun d => d)) else []
  (headers, data)

/-- Overall outcome of `athena_results` after a successful poll is composed
from `parse_results`; the failure outcomes are those of `pollLoop`. -/
inductive FetchRes
  | ok (columns : List Str) (rows : List (List Cell))
  | remoteFailure (msg : Str)
  | timeoutErr (msg : Str)
  | spin
deriving DecidableEq, Repr

/-- `athena_results` (valid-id case): poll until terminal, then fetch and parse
up to `max_rows` rows.  `fetched` models the `Rows` of `get_query_results`
(bounded by `MaxResults = max_rows`, see theorems). -/
def athena_results (obs : Nat → PollObs) (max_wait_s : Nat)
    (fetched : List (List Cell)) (fuel : Nat) : FetchRes :=
  match pollLoop obs max_wait_s fuel 0 with
  | .success _ =>
    let (cols, data) := parse_results fetched
    .ok cols data
  | .remoteFailure m => .remoteFailure m
  | .timeoutErr m => .timeoutErr m
  | .spin => .spin

/-! ## JSON model (`json.loads` / `json.dumps` on the fragment the code uses)

Numbers are kept as their lexemes (`JVal.num "1"`), sidestepping float
semantics; object insertion mirrors Python `dict` (later duplicate keys
overwrite in place). -/

/-- JSON values as produced by `json.loads`. -/
inductive JVal
  | null
  | bool (b : Bool)
  | num (lex : Str)
  | str (s : Str)
  | arr (xs : List JVal)
  | obj (kvs : List (Str × JVal))
deriving Repr

/-- JSON whitespace. -/
def wsChar (c : Char) : Bool := c = ' ' || c = '\t' || c = '\n' || c.toNat = 13

/-- Skip JSON whitespace. -/
def skipWs (s : Str) : Str := s.dropWhile wsChar

/-- One hexadecimal digit. -/
def hexDigitVal (c : Char) : Option Nat :=
  let v := c.toNat
  if 48 ≤ v ∧ v ≤ 57 then some (v - 48)
  else if 97 ≤ v ∧ v ≤ 102 then some (v - 87)
  else if 65 ≤ v ∧ v ≤ 70 then some (v - 55)
  else none

/-- Four hexadecimal digits of a `\uXXXX` escape. -/
def hexQuad (a b c d : Char) : Option Nat :=
  match hexDigitVal a, hexDigitVal b, hexDigitVal c, hexDigitVal d with
  | some x, some y, some z, some w => some (((x * 16 + y) * 16 + z) * 16 + w)
  | _, _, _, _ => none

/-- Single-character string escapes of JSON. -/
def escChar (c : Char) : Option Char :=
  if c = '"' then some '"'
  else if c = '\\' then some '\\'
  else if c = '/' then some '/'
  else if c = 'b' then some (Char.ofNat 8)
  else if c = 'f' then some (Char.ofNat 12)
  else if c = 'n' then some '\n'
  else if c = 'r' then some (Char.ofNat 13)
  else if c = 't' then some '\t'
  else none

/-- Body of a JSON string after the opening quote; returns the decoded
characters and the input after the closing quote.  Surrogate pairs in `\u`
escapes are combined as Python does; a lone surrogate (not representable as a
Lean `Char`) degrades through `Char.ofNat`. -/
def parseStrBody : Nat → Str → Option (Str × Str)
  | 0, _ => none
  | _, [] => none
  | _ + 1, '"' :: rest => some ([], rest)
  | fuel + 1, '\\' :: 'u' :: x1 :: x2 :: x3 :: x4 :: rest =>
    match hexQuad x1 x2 x3 x4 with
    | none => none
    | some n =>
      if 0xD800 ≤ n ∧ n < 0xDC00 then
        match rest with
        | '\\' :: 'u' :: y1 :: y2 :: y3 :: y4 :: rest2 =>
          match hexQuad y1 y2 y3 y4 with
          | some m =>
            if 0xDC00 ≤ m ∧ m < 0xE000 then
              (parseStrBody fuel rest2).map fun p =>
                (Char.ofNat (0x10000 + (n - 0xD800) * 0x400 + (m - 0xDC00)) :: p.1, p.2)
            else (parseStrBody fuel rest).map fun p => (Char.ofNat n :: p.1, p.2)
          | none => (parseStrBody fuel rest).map fun p => (Char.ofNat n :: p.1, p.2)
        | _ => (parseStrBody fuel rest).map fun p => (Char.ofNat n :: p.1, p.2)
      else (parseStrBody fuel rest).map fun p => (Char.ofNat n :: p.1, p.2)
  | fuel + 1, '\\' :: e :: rest =>
    match escChar e with
    | some c => (parseStrBody fuel rest).map fun p => (c :: p.1, p.2)
    | none => none
  | fuel + 1, c :: rest =>
    if c.toNat < 32 then none
    else (parseStrBody fuel rest).map fun p => (c :: p.1, p.2)

/-- JSON string body with fuel saturated to the input length (one character is
consumed per step, so this fuel never runs out). -/
def parseStr (s : Str) : Option (Str × Str) := parseStrBody (s.length + 1) s

/-- Leading decimal digits. -/
def digitSpan (s : Str) : Str × Str := (s.takeWhile Char.isDigit, s.dropWhile Char.isDigit)

/-- Integer part of a JSON number: `0` or a nonzero-led digit string. -/
def parseIntPart : Str → Option (Str × Str)
  | '0' :: rest => some (['0'], rest)
  | c :: rest =>
    if c.isDigit then
      let (ds, r) := digitSpan rest
      some (c :: ds, r)
    else none
  | [] => none

/-- Optional exponent part, appended to the lexeme accumulated so far. -/
def parseExpPart (lex : Str) (s : Str) : Option (Str × Str) :=
  match s with
  | c :: r =>
    if c = 'e' ∨ c = 'E' then
      let (sgn, r1) := match r with
        | '+' :: r2 => ((['+'] : Str), r2)
        | '-' :: r2 => ((['-'] : Str), r2)
        | _ => (([] : Str), r)
      let (ds, r2) := digitSpan r1
      if ds.isEmpty then none else some (lex ++ c :: (sgn ++ ds), r2)
    else some (lex, s)
  | [] => some (lex, s)

/-- A JSON number lexeme: `-? int frac? exp?`. -/
def parseNumber (s : Str) : Option (Str × Str) :=
  let (sign, s1) := match s with
    | '-' :: r => ((['-'] : Str), r)
    | _ => (([] : Str), s)
  match parseIntPart s1 with
  | none => none
  | some (ip, s2) =>
    match s2 with
    | '.' :: r =>
      let (ds, s3) := digitSpan r
      if ds.isEmpty then none else parseExpPart (sign ++ ip ++ '.' :: ds) s3
    | _ => parseExpPart (sign ++ ip) s2

/-- Python `dict` insertion: a duplicate key overwrites in place, a new key is
appended. -/
def objInsert (kvs : List (Str × JVal)) (k : Str) (v : JVal) : List (Str × JVal) :=
  if kvs.any (fun p => decide (p.1 = k)) then
    kvs.map (fun p => if p.1 = k then (k, v) else p)
  else kvs ++ [(k, v)]

mutual

/-- Recursive-descent JSON value parser (fuel-bounded unrolling). -/
def parseVal (fuel : Nat) (s : Str) : Option (JVal × Str) :=
  match fuel with
  | 0 => none
  | fuel' + 1 =>
    match skipWs s with
    | [] => none
    | c :: rest =>
      if c = '"' then (parseStr rest).map fun p => (.str p.1, p.2)
      else if c = '\x7b' then
        match skipWs rest with
        | '\x7d' :: r => some (.obj [], r)
        | r => parseMembers fuel' [] r
      else if c = '[' then
        match skipWs rest with
        | ']' :: r => some (.arr [], r)
        | r => parseItems fuel' [] r
      else if c = 't' then
        match rest with
        | 'r' :: 'u' :: 'e' :: r => some (.bool true, r)
        | _ => none
      else if c = 'f' then
        match rest with
        | 'a' :: 'l' :: 's' :: 'e' :: r => some (.bool false, r)
        | _ => none
      else if c = 'n' then
        match rest with
        | 'u' :: 'l' :: 'l' :: r => some (.null, r)
        | _ => none
      else if c = 'N' then
        match rest with
        | 'a' :: 'N' :: r => some (.num ("NaN").data, r)
        | _ => none
      else if c = 'I' then
        match rest with
        | 'n' :: 'f' :: 'i' :: 'n' :: 'i' :: 't' :: 'y' :: r => some (.num ("Infinity").data, r)
        | _ => none
      else if c = '-' then
        match rest with
        | 'I' :: 'n' :: 'f' :: 'i' :: 'n' :: 'i' :: 't' :: 'y' :: r =>
          some (.num ("-Infinity").data, r)
        | _ => (parseNumber (c :: rest)).map fun p => (.num p.1, p.2)
      else (parseNumber (c :: rest)).map fun p => (.num p.1, p.2)

/-- Members of a JSON object after the opening brace (nonempty case). -/
def parseMembers (fuel : Nat) (acc : List (Str × JVal)) (s : Str) : Option (JVal × Str) :=
  match fuel with
  | 0 => none
  | fuel' + 1 =>
    match s with
    | '"' :: rest =>
      match parseStr rest with
      | none => none
      | some (k, r1) =>
        match skipWs r1 with
        | ':' :: r2 =>
          match parseVal fuel' r2 with
          | none => none
          | some (v, r3) =>
            match skipWs r3 with
            | ',' :: r4 => parseMembers fuel' (objInsert acc k v) (skipWs r4)
            | '\x7d' :: r4 => some (.obj (objInsert acc k v), r4)
            | _ => none
        | _ => none
    | _ => none

/-- Items of a JSON array after the opening bracket (nonempty case). -/
def parseItems (fuel : Nat) (acc : List JVal) (s : Str) : Option (JVal × Str) :=
  match fuel with
  | 0 => none
  | fuel' + 1 =>
    match parseVal fuel' s with
    | none => none
    | some (v, r) =>
      match skipWs r with
      | ',' :: r2 => parseItems fuel' (acc ++ [v]) r2
      | ']' :: r2 => some (.arr (acc ++ [v]), r2)
      | _ => none

end

/-- `json.loads`: parse one value, allow surrounding whitespace, reject
trailing input.  The fuel `2 * s.length + 2` strictly dominates the recursion
depth reachable on an input of that length. -/
def json_loads (s : Str) : Option JVal :=
  match parseVal (2 * s.length + 2) s with
  | some (v, rest) => if (skipWs rest).isEmpty then some v else none
  | none => none

/-- Lower-case hexadecimal digit. -/
def hexChar (n : Nat) : Char :=
  Char.ofNat (if n < 10 then 48 + n else 87 + (n - 10))

/-- A `\uXXXX` escape. -/
def uEscape (n : Nat) : Str :=
  let d1 := hexChar ((n >>> 12) % 16)
  let d2 := hexChar ((n >>> 8) % 16)
  let d3 := hexChar ((n >>> 4) % 16)
  let d4 := hexChar (n % 16)
  '\\' :: 'u' :: [d1, d2, d3, d4]

/-- `json.dumps` escaping of one character (`ensure_ascii=True` default). -/
def dumpsChar (c : Char) : Str :=
  if c = '"' then ['\\', '"']
  else if c = '\\' then ['\\', '\\']
  else if c = '\n' then ['\\', 'n']
  else if c.toNat = 13 then ['\\', 'r']
  else if c = '\t' then ['\\', 't']
  else if c.toNat = 8 then ['\\', 'b']
  else if c.toNat = 12 then ['\\', 'f']
  else if c.toNat < 32 ∨ 126 < c.toNat then
    if c.toNat < 0x10000 then uEscape c.toNat
    else
      uEscape (0xD800 + (c.toNat - 0x10000) / 0x400) ++
      uEscape (0xDC00 + (c.toNat - 0x10000) % 0x400)
  else [c]

/-- `json.dumps` of a string. -/
def dumpsStr (s : Str) : Str := '"' :: (s.map dumpsChar).flatten ++ ['"']

mutual

/-- `json.dumps` with its default separators. -/
def json_dumps : JVal → Str
  | .null => ("null").data
  | .bool true => ("true").data
  | .bool false => ("false").data
  | .num lex => lex
  | .str s => dumpsStr s
  | .arr xs => '[' :: dumpsItems xs ++ [']']
  | .obj kvs => '\x7b' :: dumpsPairs kvs ++ ['\x7d']

/-- Comma-separated array items. -/
def dumpsItems : List JVal → Str
  | [] => []
  | [x] => json_dumps x
  | x :: y :: xs => json_dumps x ++ (", ").data ++ dumpsItems (y :: xs)

/-- Comma-separated object members. -/
def dumpsPairs : List (Str × JVal) → Str
  | [] => []
  | [(k, v)] => dumpsStr k ++ (": ").data ++ json_dumps v
  | (k, v) :: p :: xs => dumpsStr k ++ (": ").data ++ json_dumps v ++ (", ").data ++ dumpsPairs (p :: xs)

end

/-- Python truthiness of a decoded JSON value (numbers by their lexeme). -/
def jTruthy : JVal → Bool
  | .null => false
  | .bool b => b
  | .num lex =>
    let m := lex.takeWhile (fun c => !(c = 'e' || c = 'E'))
    !(m.any Char.isDigit && (m.filter Char.isDigit).all (fun c => c = '0'))
  | .str s => !s.isEmpty
  | .arr xs => !xs.isEmpty
  | .obj kvs => !kvs.isEmpty

/-- Python `dict` lookup (keys are unique after `objInsert`). -/
def jLookup (kvs : List (Str × JVal)) (k : Str) : Option JVal :=
  (kvs.find? (fun p => decide (p.1 = k))).map (fun p => p.2)

/-! ## Result extractor (`src/llm_bot.py`, lines 113–172, `extract_tool_result`) -/

/-- The `"text"` key. -/
def kText : Str := ("text").data

/-- The `"error"` key. -/
def kError : Str := ("error").data

/-- `isinstance(r, dict) and "text" in r and isinstance(r["text"], str)`:
the string under the `text` key, if the value is such an object. -/
def getTextField : JVal → Option Str
  | .obj kvs =>
    match jLookup kvs kText with
    | some (.str t) => some t
    | _ => none
  | _ => none

/-- One content item of an MCP tool response, keyed by which attribute the
duck-typed branches of `extract_tool_result` find on it:
`model_dump_json()` output, a `json` attribute, a `text` attribute, or none. -/
inductive MCPItem
  | mdj (s : Str)
  | jattr (v : JVal)
  | titem (s : Str)
  | other

/-- The message text of a `json.JSONDecodeError` (its exact wording is host
detail; only its occurrence matters to the control flow). -/
def jsonErrMsg : Str := ("Expecting value").data

/-- The `{"error": "No content found"}` fallback. -/
def noContentErr : JVal := .obj [(kError, .str (("No content found").data))]

/-- The shared inner step: if the decoded value is an object with a string
`text` field, prefer a successful decode of that string, else keep the value. -/
def innerDecode (r : JVal) : JVal :=
  match getTextField r with
  | some t => (json_loads t).getD r
  | none => r

/-- Handling of one content item; `none` means the branch chain fell through
and the loop moves to the next item. -/
def extractItem : MCPItem → Option JVal
  | .mdj s =>
    match json_loads s with
    | some r => some (innerDecode r)
    | none => some (.obj [(kError, .str jsonErrMsg)])
  | .jattr v => if jTruthy v then some v else none
  | .titem s =>
    if s.isEmpty then none
    else some (match json_loads s with
      | some parsed => innerDecode parsed
      | none => .obj [(kText, .str s)])
  | .other => none

/-- The `for item in mcp_result.content` loop. -/
def extractLoop : List MCPItem → JVal
  | [] => noContentErr
  | item :: rest =>
    match extractItem item with
    | some v => v
    | none => extractLoop rest

/-- `extract_tool_result(mcp_result)`; `none` models a result without a
`content` attribute. -/
def extract_tool_result : Option (List MCPItem) → JVal
  | none => noContentErr
  | some items => extractLoop items

/-! ## Orchestrator (`src/llm_bot.py`, lines 174–370, `call_llm_with_tools`)

The Anthropic model host and the MCP tool host are modelled as streams indexed
by the number of model calls issued and tools dispatched so far; the
conversation is the explicit message list the code mutates. -/

/-- Message role. -/
inductive Role
  | user
  | assistant
deriving DecidableEq, Repr

/-- A content part of a conversation message, as the code builds them. -/
inductive CPart
  | text (s : Str)
  | toolUse (id name : Str) (inp : Str)
  | toolResult (tuId : Str) (content : Str)
deriving DecidableEq, Repr

/-- A message `content` field: either a plain string or a list of parts. -/
inductive MContent
  | ofStr (s : Str)
  | ofParts (ps : List CPart)
deriving DecidableEq, Repr

/-- A conversation message. -/
structure Msg where
  role : Role
  content : MContent
deriving DecidableEq, Repr

/-- A content block of a model response: a text block (`.text` attribute), a
tool-use block (`.name`/`.input`/`.id` attributes), or something else. -/
inductive RPart
  | text (s : Str)
  | toolUse (id name : Str) (inp : Str)
  | other
deriving DecidableEq, Repr

/-- Outcome of one model call: a response, or a raised exception with `str(e)`. -/
inductive ModelOut
  | ok (parts : List RPart)
  | err (msg : Str)

/-- Outcome of one tool dispatch: an extracted result value, or a raised
exception with `str(e)`. -/
inductive ToolOut
  | ok (v : JVal)
  | exn (msg : Str)

/-- The external world of one orchestrator run: the model response to the
`n`-th model call and the outcome of the `n`-th tool dispatch. -/
structure Ctx where
  model : Nat → ModelOut
  tool : Nat → ToolOut

/-- `"429" in str(e) or "rate limit" in str(e).lower()`. -/
def rateLimitedErr (m : Str) : Bool :=
  hasSubstr m (("429").data) || hasSubstr (lowerStr m) (("rate limit").data)

/-- The fixed apology returned when rate-limited with nothing to salvage. -/
def apologyMsg : Str :=
  ("I encountered a rate limit while processing your request. Please try again in a moment.").data

/-- The fixed sentence returned when iterations are exhausted and no text could
be produced. -/
def fixedFallback : Str :=
  ("I\x27ve completed the data analysis. Please check the results above.").data

/-- Stands for the `AttributeError` the salvage scan raises when it meets an
assistant message whose `content` is a nonempty plain string. -/
def attrErrMsg : Str := ("AttributeError").data

/-- Lines 237–258: build the assistant message content from the response
blocks; stop at the first tool-use block (the `break`), skipping falsy text
blocks and unrecognised blocks. -/
def buildAssistant : List RPart → List CPart × Option (Str × Str × Str)
  | [] => ([], none)
  | .text s :: rest =>
    if s.isEmpty then buildAssistant rest
    else
      let (c, t) := buildAssistant rest
      (.text s :: c, t)
  | .toolUse id name inp :: _ => ([.toolUse id name inp], some (id, name, inp))
  | .other :: rest => buildAssistant rest

/-- Lines 264–268 (and 360–363): the truthy text blocks of a response. -/
def collectTexts (ps : List RPart) : List Str :=
  ps.filterMap fun p =>
    match p with
    | .text s => if s.isEmpty then none else some s
    | _ => none

/-- The `"text"` parts of a content-part list (salvage scan, lines 217–222). -/
def partTexts (ps : List CPart) : List Str :=
  ps.filterMap fun p =>
    match p with
    | .text s => some s
    | _ => none

/-- The salvage scan over the conversation: collect `text` parts of assistant
messages.  `none` models the `AttributeError` raised by `content.get` when an
assistant message's `content` is a nonempty plain string (iterating a string
yields characters). -/
def salvageTexts : List Msg → Option (List Str)
  | [] => some []
  | m :: rest =>
    match m.role, m.content with
    | .assistant, .ofParts ps => (salvageTexts rest).map (fun ts => partTexts ps ++ ts)
    | .assistant, .ofStr s => if s.isEmpty then salvageTexts rest else none
    | _, _ => salvageTexts rest

/-- The `{"error": str(e)}` payload for a failed tool dispatch. -/
def errPayload (m : Str) : JVal := .obj [(kError, .str m)]

/-- `json.dumps(tool_result)` appended as the `tool_result` content string. -/
def toolResultContent : ToolOut → Str
  | .ok v => json_dumps v
  | .exn m => json_dumps (errPayload m)

/-- Orchestrator state: the conversation, the number of model calls issued, the
conversation (and whether tools were offered) at each model call, and the
dispatched tool calls `(name, input)` in order. -/
structure OState where
  msgs : List Msg
  calls : Nat
  snaps : List (List Msg × Bool)
  dlog : List (Str × Str)
deriving Repr

/-- Result of one loop iteration: continue, return an answer, or propagate an
exception. -/
inductive StepRes
  | next (st : OState)
  | answer (s : Str) (st : OState)
  | fatal (msg : Str) (st : OState)

/-- One iteration of the `for iteration in range(max_iterations)` loop
(lines 197–309). -/
def oneIter (ctx : Ctx) (st : OState) : StepRes :=
  let st1 : OState := { st with calls := st.calls + 1, snaps := st.snaps ++ [(st.msgs, true)] }
  match ctx.model st.calls with
  | .err m =>
    if rateLimitedErr m then
      match salvageTexts st.msgs with
      | none => .fatal attrErrMsg st1
      | some ts => .answer (if ts.isEmpty then apologyMsg else joinNL ts) st1
    else .fatal m st1
  | .ok parts =>
    match buildAssistant parts with
    | (_, none) => .answer (joinNL (collectTexts parts)) st1
    | (content, some (id, name, inp)) =>
      let res := toolResultContent (ctx.tool st.dlog.length)
      .next { st1 with
        msgs := st1.msgs ++
          [{ role := .assistant, content := .ofParts content },
           { role := .user, content := .ofParts [.toolResult id res] }],
        dlog := st1.dlog ++ [(name, inp)] }

/-- The keys whose presence marks a tool result as "actual data" (line 324). -/
def dataKeys : List Str :=
  [("columns").data, ("data").data, ("rows").data, ("databases").data, ("tables").data]

/-- Line 324: the decoded tool-result content is a dict with one of the data keys. -/
def parsedHasDataKeys : JVal → Bool
  | .obj kvs => dataKeys.any (fun k => kvs.any (fun p => decide (p.1 = k)))
  | _ => false

/-- A `tool_result` part whose content decodes to a data-carrying dict. -/
def partIsDataResult (p : CPart) : Bool :=
  match p with
  | .toolResult _ c =>
    match json_loads c with
    | some v => parsedHasDataKeys v
    | none => false
  | _ => false

/-- Any `tool_result` part. -/
def partIsToolResult (p : CPart) : Bool :=
  match p with
  | .toolResult _ _ => true
  | _ => false

/-- The parts a `role == "user"` message contributes to the `has_data` scans
(a plain-string content iterates characters, contributing nothing). -/
def msgUserParts (m : Msg) : List CPart :=
  match m.role, m.content with
  | .user, .ofParts ps => ps
  | _, _ => []

/-- First `has_data` pass (lines 315–330): a user tool result with data keys. -/
def hasDataPassOne (msgs : List Msg) : Bool :=
  msgs.any fun m => (msgUserParts m).any partIsDataResult

/-- Second `has_data` pass (lines 332–341): any user tool result at all. -/
def hasDataPassTwo (msgs : List Msg) : Bool :=
  msgs.any fun m => (msgUserParts m).any partIsToolResult

/-- `has_data` after both passes. -/
def hasData (msgs : List Msg) : Bool := hasDataPassOne msgs || hasDataPassTwo msgs

/-- The plain-string user request appended before the final summarization call
(line 348). -/
def analysisPrompt : Str :=
  ("Based on the database exploration and queries I\x27ve executed, please provide a comprehensive analysis of the Android GAM revenue data. Include:\n1. What databases and tables were found\n2. What data structure was discovered\n3. Any successful query results\n4. Challenges encountered with column access\n5. Recommendations for accessing the Android revenue data\n\nPlease be specific about what was found and what the next steps should be.").data

/-- Run outcome: a returned string, or a propagated exception. -/
inductive ROut
  | answer (s : Str)
  | fatal (msg : Str)
deriving DecidableEq, Repr

/-- Lines 311–370: the phase after `max_iterations` is exhausted.  With data in
the conversation, append the analysis request and issue one more model call
with no tools offered (any exception there is swallowed); otherwise return the
fixed sentence without a further call. -/
def exhaustedPhase (ctx : Ctx) (st : OState) : ROut × OState :=
  if hasData st.msgs then
    let msgs2 := st.msgs ++ [{ role := .user, content := .ofStr analysisPrompt }]
    let st1 : OState :=
      { st with msgs := msgs2, calls := st.calls + 1, snaps := st.snaps ++ [(msgs2, false)] }
    match ctx.model st.calls with
    | .ok parts =>
      let ts := collectTexts parts
      (.answer (if ts.isEmpty then fixedFallback else joinNL ts), st1)
    | .err _ => (.answer fixedFallback, st1)
  else (.answer fixedFallback, st)

/-- The bounded iteration of `oneIter`, falling into `exhaustedPhase` when the
iteration budget runs out. -/
def runLoop (ctx : Ctx) : Nat → OState → ROut × OState
  | 0, st => exhaustedPhase ctx st
  | n + 1, st =>
    match oneIter ctx st with
    | .next st' => runLoop ctx n st'
    | .answer s st' => (.answer s, st')
    | .fatal m st' => (.fatal m, st')

/-- `call_llm_with_tools(messages, system_prompt, max_iterations)`.  The system
prompt is forwarded to the model host and has no effect on the control flow. -/
def call_llm_with_tools (ctx : Ctx) (messages : List Msg) (system_prompt : Str)
    (max_iterations : Nat) : ROut × OState :=
  let _ := system_prompt
  runLoop ctx max_iterations { msgs := messages, calls := 0, snaps := [], dlog := [] }

/-! ## Derived notions used in the statements and proofs -/

/-- A plain text content part. -/
def partIsText : CPart → Bool
  | .text _ => true
  | _ => false

/-- A tool-use content part. -/
def partIsToolUse : CPart → Bool
  | .toolUse _ _ _ => true
  | _ => false

/-- The content parts of a conversation in order (plain-string contents
contribute none). -/
def FlatParts (msgs : List Msg) : List CPart :=
  (msgs.map fun m =>
    match m.content with
    | .ofParts ps => ps
    | .ofStr _ => []).flatten

/-- The conversation pairing discipline: in the flattened part sequence, every
tool-use part is immediately followed by exactly one tool-result part carrying
its id, and no tool-result part appears otherwise. -/
def pairedFlat : List CPart → Bool
  | [] => true
  | .toolUse id _ _ :: .toolResult rid _ :: rest => decide (id = rid) && pairedFlat rest
  | .toolUse _ _ _ :: _ => false
  | .toolResult _ _ :: _ => false
  | .text _ :: rest => pairedFlat rest

/-- Number of tool-result parts. -/
def countTR (ps : List CPart) : Nat := (ps.filter partIsToolResult).length

/-- Number of tool-use parts. -/
def countTU (ps : List CPart) : Nat := (ps.filter partIsToolUse).length

/-- The model response contains a tool-use block that the loop would dispatch. -/
def modelRequestsTool : ModelOut → Bool
  | .ok parts => (buildAssistant parts).2.isSome
  | .err _ => false

/-- Spec-side reading of the salvage source: all `Text` parts present in
assistant messages of the conversation, in order. -/
def assistantTexts (msgs : List Msg) : List Str :=
  (msgs.map fun m =>
    match m.role, m.content with
    | .assistant, .ofParts ps => partTexts ps
    | _, _ => []).flatten

/-- Every assistant message carries a part list (the shape the data model
prescribes and the loop itself produces); a nonempty plain-string assistant
content would crash the salvage scan. -/
def assistantPartsOnly (msgs : List Msg) : Bool :=
  msgs.all fun m =>
    match m.role, m.content with
    | .assistant, .ofStr s => s.isEmpty
    | _, _ => true

/-- The state carried by a step outcome. -/
def stepState : StepRes → OState
  | .next st => st
  | .answer _ st => st
  | .fatal _ st => st

/-- Invariant tying the conversation to the dispatch log: the flattened parts
are properly paired, their tool-result and tool-use counts both equal the
number of dispatched tools, and every model-call snapshot was properly paired. -/
def ConvInv (st : OState) : Prop :=
  pairedFlat (FlatParts st.msgs) = true ∧
  countTR (FlatParts st.msgs) = st.dlog.length ∧
  countTU (FlatParts st.msgs) = st.dlog.length ∧
  ∀ p ∈ st.snaps, pairedFlat (FlatParts p.1) = true

/-! ## Theorems -/

/-- C10: on a successful poll the first fetched row is treated as the header
(missing cells become the empty string), the returned rows exclude the header
(so they number at most `max_rows - 1` when at most `max_rows` rows were
fetched) with missing cells kept as nulls, and an empty fetched result set
yields empty columns and rows rather than an error. -/
theorem C10_result_parsing (rows : List (List Cell)) (max_rows : Nat)
    (hlen : rows.length ≤ max_rows) :
    (rows = [] → parse_results rows = ([], [])) ∧
    (∀ hd tl, rows = hd :: tl →
      (parse_results rows).1 = hd.map (fun c => c.getD []) ∧
      (parse_results rows).2 = tl) ∧
    (parse_results rows).2.length ≤ max_rows - 1 := by
  refine ⟨?_, ?_, ?_⟩
  · rintro rfl; rfl
  · rintro hd tl rfl
    refine ⟨by simp [parse_results], ?_⟩
    cases tl with
    | nil => simp [parse_results]
    | cons r rs => simp [parse_results]
  · cases rows with
    | nil => simp [parse_results]
    | cons hd tl =>
      have h2 : (parse_results (hd :: tl)).2 = tl := by
        cases tl with
        | nil => simp [parse_results]
        | cons r rs => simp [parse_results]
      rw [h2]
      simp only [List.length_cons] at hlen
      omega

/-- C10 witness: a concrete two-row fetch with missing cells. -/
theorem C10_witness :
    parse_results [[some (("a").data), none], [none, some (("b").data)]] =
      ([("a").data, []], [[none, some (("b").data)]]) := by
  have h := C10_result_parsing [[some (("a").data), none], [none, some (("b").data)]] 2
    (by decide)
  obtain ⟨h1, h2⟩ := (h.2.1 _ _ rfl)
  have : parse_results [[some (("a").data), none], [none, some (("b").data)]] =
      ((parse_results [[some (("a").data), none], [none, some (("b").data)]]).1,
       (parse_results [[some (("a").data), none], [none, some (("b").data)]]).2) := rfl
  rw [this, h1, h2]
  rfl

/-- Skipping `k` non-terminal, non-timed-out polls advances the loop. -/
theorem pollLoop_shift (obs : Nat → PollObs) (mw : Nat) :
    ∀ (k : Nat), ∀ (fuel i : Nat), k ≤ fuel →
      (∀ j, j < k →
        ¬(obs (i + j)).state = ("SUCCEEDED").data ∧
        ¬((obs (i + j)).state = ("FAILED").data ∨ (obs (i + j)).state = ("CANCELLED").data) ∧
        (obs (i + j)).elapsed ≤ mw) →
      pollLoop obs mw fuel i = pollLoop obs mw (fuel - k) (i + k) := by
  intro k
  induction k with
  | zero => intro fuel i _ _; simp
  | succ k ih =>
    intro fuel i hk hj
    match fuel, hk with
    | fuel + 1, _ =>
      have h0 := hj 0 (Nat.succ_pos k)
      rw [Nat.add_zero] at h0
      have hstep : pollLoop obs mw (fuel + 1) i = pollLoop obs mw fuel (i + 1) := by
        rw [pollLoop]
        rw [if_neg h0.1, if_neg h0.2.1, if_neg (by omega : ¬ mw < (obs i).elapsed)]
      rw [hstep]
      have hrec := ih fuel (i + 1) (by omega) (fun j hjk => by
        have := hj (j + 1) (by omega)
        simpa [Nat.add_assoc, Nat.add_comm 1 j] using this)
      rw [hrec]
      congr 1
      · omega
      · omega

/-- C6: a polled status sequence that reaches `FAILED`/`CANCELLED` (before any
`SUCCEEDED` and before the wall clock exceeds `max_wait_s`) makes the poller
fail with the `RuntimeError` carrying the remote reason; a job that never
reports a terminal state fails with the distinct `TimeoutError` at the first
poll whose elapsed time exceeds `max_wait_s`; and that timeout check fires in
every iteration, independent of the remote state, as long as the state is not
terminal. -/
theorem C6_poller_failures (obs : Nat → PollObs) (mw : Nat) :
    (∀ k fuel, k < fuel →
      ((obs k).state = ("FAILED").data ∨ (obs k).state = ("CANCELLED").data) →
      (∀ j, j < k →
        ¬(obs j).state = ("SUCCEEDED").data ∧
        ¬((obs j).state = ("FAILED").data ∨ (obs j).state = ("CANCELLED").data) ∧
        (obs j).elapsed ≤ mw) →
      pollLoop obs mw fuel 0 = .remoteFailure (remoteFailMsg (obs k).state (obs k).reason)) ∧
    (∀ k fuel, k < fuel →
      (∀ i, ¬(obs i).state = ("SUCCEEDED").data ∧
        ¬((obs i).state = ("FAILED").data ∨ (obs i).state = ("CANCELLED").data)) →
      mw < (obs k).elapsed →
      (∀ j, j < k → (obs j).elapsed ≤ mw) →
      pollLoop obs mw fuel 0 = .timeoutErr timedOutMsg) ∧
    (∀ i fuel,
      ¬(obs i).state = ("SUCCEEDED").data →
      ¬((obs i).state = ("FAILED").data ∨ (obs i).state = ("CANCELLED").data) →
      mw < (obs i).elapsed →
      pollLoop obs mw (fuel + 1) i = .timeoutErr timedOutMsg) ∧
    (∀ m, (PollRes.timeoutErr timedOutMsg) ≠ PollRes.remoteFailure m) := by
  refine ⟨?_, ?_, ?_, ?_⟩
  · intro k fuel hk hterm hj
    have := pollLoop_shift obs mw k fuel 0 (by omega) (by simpa using hj)
    rw [this]
    match hfk : fuel - k, (by omega : 1 ≤ fuel - k) with
    | fk + 1, _ =>
      rw [pollLoop]
      have hns : ¬(obs (0 + k)).state = ("SUCCEEDED").data := by
        rcases hterm with h | h <;> simp [Nat.zero_add, h]
      rw [if_neg hns, if_pos (by simpa using hterm)]
      simp
  · intro k fuel hk hnon hto hj
    have := pollLoop_shift obs mw k fuel 0 (by omega)
      (fun j hjk => by
        simp only [Nat.zero_add]
        exact ⟨(hnon j).1, (hnon j).2, hj j hjk⟩)
    rw [this]
    match hfk : fuel - k, (by omega : 1 ≤ fuel - k) with
    | fk + 1, _ =>
      rw [pollLoop]
      rw [if_neg (by simpa using (hnon k).1), if_neg (by simpa using (hnon k).2),
        if_pos (by simpa using hto)]
  · intro i fuel h1 h2 h3
    rw [pollLoop]
    rw [if_neg h1, if_neg h2, if_pos h3]
  · intro m h
    exact PollRes.noConfusion h

/-- C6 witness: a job failing on the second poll yields the remote reason; a
never-terminal job with growing elapsed time times out. -/
theorem C6_witness :
    pollLoop (fun i => if i = 0 then ⟨("RUNNING").data, none, 10⟩
      else ⟨("FAILED").data, some (("boom").data), 20⟩) 60 3 0 =
        .remoteFailure (remoteFailMsg (("FAILED").data) (some (("boom").data))) ∧
    pollLoop (fun i => ⟨("RUNNING").data, none, 30 * i⟩) 60 5 0 = .timeoutErr timedOutMsg := by
  constructor
  · have h := (C6_poller_failures (fun i => if i = 0 then ⟨("RUNNING").data, none, 10⟩
      else ⟨("FAILED").data, some (("boom").data), 20⟩) 60).1 1 3 (by omega)
      (by decide)
      (fun j hj => by
        have : j = 0 := by omega
        subst this
        refine ⟨by decide, by decide, by decide⟩)
    simpa using h
  · exact (C6_poller_failures (fun i => ⟨("RUNNING").data, none, 30 * i⟩) 60).2.1 3 5
      (by omega)
      (fun i =>
        ⟨(by decide : ¬("RUNNING").data = ("SUCCEEDED").data),
         (by decide : ¬(("RUNNING").data = ("FAILED").data ∨
            ("RUNNING").data = ("CANCELLED").data))⟩)
      (by decide)
      (fun j hj => by interval_cases j <;> decide)

/-- A positioned whole-word match is the same thing as a bounded decomposition
of the statement around a case-insensitive occurrence of the token. -/
theorem wordMatch_exists_iff (s w : Str) :
    (∃ i, i < s.length + 1 ∧ wordMatchAt s i w = true) ↔
    (∃ pre tok suf, s = pre ++ tok ++ suf ∧ lowerStr tok = lowerStr w ∧
      boundaryOk pre.getLast? = true ∧ boundaryOk suf.head? = true) := by
  constructor
  · rintro ⟨i, _, hm⟩
    unfold wordMatchAt at hm
    simp only [Bool.and_eq_true, decide_eq_true_eq] at hm
    obtain ⟨⟨h1, h2⟩, h3⟩ := hm
    refine ⟨s.take i, (s.drop i).take w.length, (s.drop i).drop w.length, ?_, h1, h2, ?_⟩
    · rw [List.append_assoc, List.take_append_drop, List.take_append_drop]
    · rw [List.drop_drop]
      exact h3
  · rintro ⟨pre, tok, suf, rfl, hlow, hpre, hsuf⟩
    have hlen : tok.length = w.length := by
      have := congrArg List.length hlow
      simpa [lowerStr] using this
    refine ⟨pre.length, ?_, ?_⟩
    · simp [List.length_append]
      omega
    · unfold wordMatchAt
      have hdrop : (pre ++ tok ++ suf).drop pre.length = tok ++ suf := by
        rw [List.append_assoc, List.drop_left]
      have htake : (pre ++ tok ++ suf).take pre.length = pre := by
        rw [List.append_assoc, List.take_left]
      have hdrop2 : (pre ++ tok ++ suf).drop (pre.length + w.length) = suf := by
        rw [← hlen, ← List.length_append, List.drop_left]
      rw [hdrop, htake, hdrop2]
      simp only [Bool.and_eq_true, decide_eq_true_eq]
      refine ⟨⟨?_, hpre⟩, hsuf⟩
      rw [← hlen, List.take_left]
      exact hlow

/-- The compiled `SQL_BLOCK` search is exactly the claim's whole-word
containment predicate. -/
theorem SQL_BLOCK_search_iff (s : Str) : SQL_BLOCK_search s = true ↔ HasBlockedWord s := by
  unfold SQL_BLOCK_search HasBlockedWord
  rw [List.any_eq_true]
  constructor
  · rintro ⟨i, hir, hw⟩
    rw [List.any_eq_true] at hw
    obtain ⟨w, hwmem, hm⟩ := hw
    obtain ⟨pre, tok, suf, h1, h2, h3, h4⟩ :=
      (wordMatch_exists_iff s w).mp ⟨i, List.mem_range.mp hir, hm⟩
    exact ⟨w, pre, tok, suf, hwmem, h1, h2, h3, h4⟩
  · rintro ⟨w, pre, tok, suf, hwmem, h1, h2, h3, h4⟩
    obtain ⟨i, hi, hm⟩ := (wordMatch_exists_iff s w).mpr ⟨pre, tok, suf, h1, h2, h3, h4⟩
    exact ⟨i, List.mem_range.mpr hi, List.any_eq_true.mpr ⟨w, hwmem, hm⟩⟩

/-- C1: a statement containing one of the blocked tokens as a whole word, in
any letter case, anywhere in the text, is rejected by `athena_query` with the
`ValueError` and no `start_query_execution` call is attempted; a statement
containing none of them as a whole word passes the guard and is submitted.
(The `asciiOnly` hypothesis marks the domain on which the embedding of the
regular expression's `\w`/case folding is faithful to Python.) -/
theorem C1_sql_guard (qexecId sql : Str) (_hascii : asciiOnly sql = true) :
    (HasBlockedWord sql →
      athena_query qexecId sql = (.rejected onlySelectMsg, [])) ∧
    (¬HasBlockedWord sql →
      athena_query qexecId sql = (.submitted qexecId, [sql])) := by
  refine ⟨fun h => ?_, fun h => ?_⟩
  · have hs : SQL_BLOCK_search sql = true := (SQL_BLOCK_search_iff sql).mpr h
    simp [athena_query, hs]
  · have hs : SQL_BLOCK_search sql = false := by
      cases hb : SQL_BLOCK_search sql
      · rfl
      · exact absurd ((SQL_BLOCK_search_iff sql).mp hb) h
    simp [athena_query, hs]

/-- C1 witness: a mixed-case `DROP` buried mid-statement is rejected with no
backend call; a statement whose only blocked token occurs inside a word
(`created_at`) is submitted. -/
theorem C1_witness :
    athena_query (("qid").data) (("select 1; dRoP table x").data) =
      (.rejected onlySelectMsg, []) ∧
    athena_query (("qid").data) (("SELECT created_at FROM t").data) =
      (.submitted (("qid").data), [("SELECT created_at FROM t").data]) := by
  constructor
  · exact (C1_sql_guard (("qid").data) (("select 1; dRoP table x").data) (by decide)).1
      ⟨("DROP").data, ("select 1; ").data, ("dRoP").data, (" table x").data,
        by decide, by decide, by decide, by decide, by decide⟩
  · exact (C1_sql_guard (("qid").data) (("SELECT created_at FROM t").data) (by decide)).2
      (fun hbw => absurd ((SQL_BLOCK_search_iff _).mpr hbw) (by decide))

/-- C7: on a text content item the extractor never raises: it JSON-decodes the
text payload; if the decoded value is an object with a string `text` field it
attempts to decode that string and prefers the successfully decoded inner
value; on decode failure at any level it returns the most-recently decoded
value, or the object `{"text": <raw string>}` when nothing decoded. -/
theorem C7_extractor_cascade (s : Str) (hne : s.isEmpty = false) :
    (json_loads s = none →
      extract_tool_result (some [.titem s]) = .obj [(kText, .str s)]) ∧
    (∀ v, json_loads s = some v → getTextField v = none →
      extract_tool_result (some [.titem s]) = v) ∧
    (∀ v t w, json_loads s = some v → getTextField v = some t → json_loads t = some w →
      extract_tool_result (some [.titem s]) = w) ∧
    (∀ v t, json_loads s = some v → getTextField v = some t → json_loads t = none →
      extract_tool_result (some [.titem s]) = v) := by
  refine ⟨fun h0 => ?_, fun v h0 h1 => ?_, fun v t w h0 h1 h2 => ?_, fun v t h0 h1 h2 => ?_⟩ <;>
    simp [extract_tool_result, extractLoop, extractItem, innerDecode, hne, h0]
  · simp [h1]
  · simp [h1, h2]
  · simp [h1, h2]

/-- C7 witness: the doubly wrapped payload decodes to the inner object, and a
non-JSON text degrades to the raw-text object. -/
theorem C7_witness :
    extract_tool_result (some [.titem (("\x7b\"text\": \"\x7b\\\"a\\\":1\x7d\"\x7d").data)]) =
      .obj [(("a").data, .num (("1").data))] ∧
    extract_tool_result (some [.titem (("hello").data)]) =
      .obj [(kText, .str (("hello").data))] := by
  constructor
  · exact (C7_extractor_cascade (("\x7b\"text\": \"\x7b\\\"a\\\":1\x7d\"\x7d").data)
      (by decide)).2.2.1
      (.obj [(kText, .str (("\x7b\"a\":1\x7d").data))]) (("\x7b\"a\":1\x7d").data)
      (.obj [(("a").data, .num (("1").data))]) rfl rfl rfl
  · exact (C7_extractor_cascade (("hello").data) (by decide)).1 rfl

/-- Processing a response whose first tool-use block is preceded only by text
or unrecognised blocks: the assistant content is the truthy texts before it
plus that block, and everything after it is discarded. -/
theorem buildAssistant_first_tool (pre post : List RPart) (id name inp : Str)
    (hpre : ∀ i2 n2 p2, RPart.toolUse i2 n2 p2 ∉ pre) :
    buildAssistant (pre ++ .toolUse id name inp :: post) =
      ((collectTexts pre).map CPart.text ++ [.toolUse id name inp], some (id, name, inp)) := by
  induction pre with
  | nil => simp [buildAssistant, collectTexts]
  | cons p rest ih =>
    have hrest : ∀ i2 n2 p2, RPart.toolUse i2 n2 p2 ∉ rest := fun i2 n2 p2 h =>
      hpre i2 n2 p2 (List.mem_cons_of_mem _ h)
    cases p with
    | text s =>
      by_cases hs : s = []
      · subst hs
        simpa [buildAssistant, collectTexts, List.filterMap_cons] using ih hrest
      · simp [buildAssistant, collectTexts, List.filterMap_cons, hs, ih hrest]
    | toolUse i2 n2 p2 => exact absurd (List.mem_cons_self _ _) (hpre i2 n2 p2)
    | other =>
      simpa [buildAssistant, collectTexts, List.filterMap_cons] using ih hrest

/-- A dispatched tool use always sits at the end of the assistant content,
after text parts only. -/
theorem buildAssistant_some (ps : List RPart) :
    ∀ (content : List CPart) (id name inp : Str),
    buildAssistant ps = (content, some (id, name, inp)) →
    ∃ ts : List Str, content = ts.map CPart.text ++ [.toolUse id name inp] := by
  induction ps with
  | nil => intro content id name inp h; simp [buildAssistant] at h
  | cons p rest ih =>
    intro content id name inp h
    cases hb : buildAssistant rest with
    | mk c t =>
      cases p with
      | text s =>
        by_cases hs : s = []
        · subst hs
          simp only [buildAssistant] at h
          exact ih content id name inp h
        · have hs2 : s.isEmpty = false := by
            cases s with
            | nil => exact absurd rfl hs
            | cons a as => rfl
          simp only [buildAssistant, hs2, Bool.false_eq_true, if_false, hb] at h
          have hc := congrArg Prod.fst h
          have ht := congrArg Prod.snd h
          simp only at hc ht
          obtain ⟨ts, hts⟩ := ih c id name inp (by rw [hb, ht])
          exact ⟨s :: ts, by rw [← hc, hts]; simp⟩
      | toolUse i2 n2 p2 =>
        have hc := congrArg Prod.fst h
        have ht := congrArg Prod.snd h
        simp only [buildAssistant] at hc ht
        have h2 : (i2, n2, p2) = (id, name, inp) := Option.some.inj ht
        rw [Prod.mk.injEq, Prod.mk.injEq] at h2
        obtain ⟨rfl, rfl, rfl⟩ := h2
        exact ⟨[], by rw [← hc]; simp⟩
      | other =>
        simp only [buildAssistant] at h
        exact ih content id name inp h

/-- Pairing is compositional: a fully paired block prefixes off. -/
theorem pairedFlat_append : ∀ (xs ys : List CPart), pairedFlat xs = true →
    pairedFlat (xs ++ ys) = pairedFlat ys
  | [], _, _ => rfl
  | .text t :: rest, ys, h => by
    simp only [pairedFlat] at h
    simpa only [List.cons_append, pairedFlat] using pairedFlat_append rest ys h
  | .toolUse id nm i :: .toolResult rid c :: rest, ys, h => by
    simp only [pairedFlat, Bool.and_eq_true] at h
    have hrec := pairedFlat_append rest ys h.2
    simp only [List.cons_append, pairedFlat, h.1, Bool.true_and]
    exact hrec
  | .toolUse _ _ _ :: [], ys, h => by simp [pairedFlat] at h
  | .toolUse _ _ _ :: .text _ :: _, ys, h => by simp [pairedFlat] at h
  | .toolUse _ _ _ :: .toolUse _ _ _ :: _, ys, h => by simp [pairedFlat] at h
  | .toolResult _ _ :: _, ys, h => by simp [pairedFlat] at h

/-- A text block followed by a matching tool-use/tool-result pair is paired. -/
theorem pairedFlat_texts_pair (ts : List Str) (id nm inp c : Str) :
    pairedFlat (ts.map CPart.text ++ [.toolUse id nm inp, .toolResult id c]) = true := by
  induction ts with
  | nil => simp [pairedFlat]
  | cons t ts ih => simpa [pairedFlat] using ih

/-- Text-only part lists are paired. -/
theorem pairedFlat_of_text (ps : List CPart) (h : ps.all partIsText = true) :
    pairedFlat ps = true := by
  induction ps with
  | nil => rfl
  | cons p rest ih =>
    simp only [List.all_cons, Bool.and_eq_true] at h
    cases p with
    | text s => simpa [pairedFlat] using ih h.2
    | toolUse a b c => simp [partIsText] at h
    | toolResult a b => simp [partIsText] at h

/-- Tool-result counting distributes over append. -/
theorem countTR_append (xs ys : List CPart) :
    countTR (xs ++ ys) = countTR xs + countTR ys := by
  simp [countTR, List.filter_append]

/-- Tool-use counting distributes over append. -/
theorem countTU_append (xs ys : List CPart) :
    countTU (xs ++ ys) = countTU xs + countTU ys := by
  simp [countTU, List.filter_append]

/-- Text-only part lists contain no tool results. -/
theorem countTR_of_text (ps : List CPart) (h : ps.all partIsText = true) :
    countTR ps = 0 := by
  induction ps with
  | nil => rfl
  | cons p rest ih =>
    simp only [List.all_cons, Bool.and_eq_true] at h
    cases p with
    | text s => simpa [countTR, List.filter, partIsToolResult] using ih h.2
    | toolUse a b c => simp [partIsText] at h
    | toolResult a b => simp [partIsText] at h

/-- Text-only part lists contain no tool uses. -/
theorem countTU_of_text (ps : List CPart) (h : ps.all partIsText = true) :
    countTU ps = 0 := by
  induction ps with
  | nil => rfl
  | cons p rest ih =>
    simp only [List.all_cons, Bool.and_eq_true] at h
    cases p with
    | text s => simpa [countTU, List.filter, partIsToolUse] using ih h.2
    | toolUse a b c => simp [partIsText] at h
    | toolResult a b => simp [partIsText] at h

/-- Mapped text parts are all text. -/
theorem all_text_map (ts : List Str) : (ts.map CPart.text).all partIsText = true := by
  simp [List.all_map, partIsText, Function.comp]

/-- One appended iteration block contains exactly one tool result. -/
theorem countTR_block (ts : List Str) (id nm inp c : Str) :
    countTR (ts.map CPart.text ++ [.toolUse id nm inp, .toolResult id c]) = 1 := by
  rw [countTR_append, countTR_of_text _ (all_text_map ts)]
  simp [countTR, List.filter, partIsToolResult]

/-- One appended iteration block contains exactly one tool use. -/
theorem countTU_block (ts : List Str) (id nm inp c : Str) :
    countTU (ts.map CPart.text ++ [.toolUse id nm inp, .toolResult id c]) = 1 := by
  rw [countTU_append, countTU_of_text _ (all_text_map ts)]
  simp [countTU, List.filter, partIsToolUse]

/-- Flattening distributes over append. -/
theorem FlatParts_append (xs ys : List Msg) :
    FlatParts (xs ++ ys) = FlatParts xs ++ FlatParts ys := by
  simp [FlatParts]

/-- The two messages appended after a dispatch flatten to their parts. -/
theorem FlatParts_pair (a b : List CPart) (r1 r2 : Role) :
    FlatParts [{ role := r1, content := .ofParts a }, { role := r2, content := .ofParts b }] =
      a ++ b := by
  simp [FlatParts]

/-- A plain-string message contributes no parts. -/
theorem FlatParts_ofStr (r : Role) (s : Str) :
    FlatParts [{ role := r, content := .ofStr s }] = [] := by
  simp [FlatParts]

/-- Snapshotting the current conversation preserves the invariant. -/
theorem ConvInv_snap (st : OState) (c : Nat) (b : Bool) (h : ConvInv st) :
    ConvInv { st with calls := c, snaps := st.snaps ++ [(st.msgs, b)] } := by
  obtain ⟨h1, h2, h3, h4⟩ := h
  refine ⟨h1, h2, h3, ?_⟩
  intro p hp
  rcases List.mem_append.mp hp with h' | h'
  · exact h4 p h'
  · have : p = (st.msgs, b) := List.mem_singleton.mp h'
    rw [this]
    exact h1

/-- One loop iteration preserves the conversation invariant. -/
theorem oneIter_inv (ctx : Ctx) (st : OState) (h : ConvInv st) :
    ConvInv (stepState (oneIter ctx st)) := by
  have hsnap := ConvInv_snap st (st.calls + 1) true h
  unfold oneIter
  cases hm : ctx.model st.calls with
  | err m =>
    by_cases hr : rateLimitedErr m
    · cases hs : salvageTexts st.msgs with
      | none => simp only [hr, if_true, hs, stepState]; exact hsnap
      | some ts => simp only [hr, if_true, hs, stepState]; exact hsnap
    · simp only [hr, Bool.false_eq_true, if_false, stepState]; exact hsnap
  | ok parts =>
    cases hb : buildAssistant parts with
    | mk content t =>
      cases t with
      | none => simp only [hb, stepState]; exact hsnap
      | some tr =>
        obtain ⟨id, name, inp⟩ := tr
        simp only [hb, stepState]
        obtain ⟨ts, hts⟩ := buildAssistant_some parts content id name inp hb
        subst hts
        obtain ⟨h1, h2, h3, h4⟩ := h
        refine ⟨?_, ?_, ?_, ?_⟩
        · rw [FlatParts_append, FlatParts_pair, pairedFlat_append _ _ h1,
            List.append_assoc]
          exact pairedFlat_texts_pair ts id name inp _
        · rw [FlatParts_append, FlatParts_pair, countTR_append, h2, List.append_assoc,
            List.singleton_append]
          rw [countTR_block ts id name inp _]
          simp
        · rw [FlatParts_append, FlatParts_pair, countTU_append, h3, List.append_assoc,
            List.singleton_append]
          rw [countTU_block ts id name inp _]
          simp
        · intro p hp
          rcases List.mem_append.mp hp with h' | h'
          · exact h4 p h'
          · have : p = (st.msgs, true) := List.mem_singleton.mp h'
            rw [this]
            exact h1

/-- The exhaustion phase preserves the conversation invariant. -/
theorem exhaustedPhase_inv (ctx : Ctx) (st : OState) (h : ConvInv st) :
    ConvInv (exhaustedPhase ctx st).2 := by
  obtain ⟨h1, h2, h3, h4⟩ := h
  unfold exhaustedPhase
  by_cases hd : hasData st.msgs
  · have hflat : FlatParts (st.msgs ++
        [{ role := Role.user, content := MContent.ofStr analysisPrompt }]) =
        FlatParts st.msgs := by
      rw [FlatParts_append, FlatParts_ofStr, List.append_nil]
    have key : ∀ p, p ∈ st.snaps ++
        [(st.msgs ++ [{ role := Role.user, content := MContent.ofStr analysisPrompt }],
          false)] → pairedFlat (FlatParts p.1) = true := by
      intro p hp
      rcases List.mem_append.mp hp with h' | h'
      · exact h4 p h'
      · have := List.mem_singleton.mp h'
        rw [this, hflat]
        exact h1
    cases hm : ctx.model st.calls with
    | ok parts =>
      simp only [hd, if_true, hm]
      exact ⟨by rw [hflat]; exact h1, by rw [hflat]; exact h2, by rw [hflat]; exact h3, key⟩
    | err m =>
      simp only [hd, if_true, hm]
      exact ⟨by rw [hflat]; exact h1, by rw [hflat]; exact h2, by rw [hflat]; exact h3, key⟩
  · simp only [hd, Bool.false_eq_true, if_false]
    exact ⟨h1, h2, h3, h4⟩

/-- The whole run preserves the conversation invariant. -/
theorem runLoop_inv (ctx : Ctx) : ∀ (n : Nat) (st : OState), ConvInv st →
    ConvInv (runLoop ctx n st).2
  | 0, st, h => exhaustedPhase_inv ctx st h
  | n + 1, st, h => by
    have hstep := oneIter_inv ctx st h
    cases ho : oneIter ctx st with
    | next st2 =>
      rw [ho] at hstep
      simp only [stepState] at hstep
      simpa [runLoop, ho] using runLoop_inv ctx n st2 hstep
    | answer s st2 =>
      rw [ho] at hstep
      simp only [stepState] at hstep
      simpa [runLoop, ho] using hstep
    | fatal m st2 =>
      rw [ho] at hstep
      simp only [stepState] at hstep
      simpa [runLoop, ho] using hstep

/-- Every iteration issues exactly one model call. -/
theorem oneIter_calls (ctx : Ctx) (st : OState) :
    (stepState (oneIter ctx st)).calls = st.calls + 1 := by
  unfold oneIter
  cases hm : ctx.model st.calls with
  | err m =>
    by_cases hr : rateLimitedErr m
    · cases hs : salvageTexts st.msgs <;> simp [hr, hs, stepState]
    · simp [hr, stepState]
  | ok parts =>
    cases hb : buildAssistant parts with
    | mk content t =>
      cases t with
      | none => simp [hb, stepState]
      | some tr =>
        obtain ⟨id, name, inp⟩ := tr
        simp [hb, stepState]

/-- The exhaustion phase issues at most one further model call. -/
theorem exhaustedPhase_calls (ctx : Ctx) (st : OState) :
    (exhaustedPhase ctx st).2.calls ≤ st.calls + 1 := by
  unfold exhaustedPhase
  by_cases hd : hasData st.msgs
  · cases hm : ctx.model st.calls <;> simp [hd, hm]
  · simp [hd]

/-- The run issues at most `n + 1` model calls on a budget of `n` iterations. -/
theorem runLoop_calls (ctx : Ctx) : ∀ (n : Nat) (st : OState),
    (runLoop ctx n st).2.calls ≤ st.calls + n + 1
  | 0, st => by simpa [runLoop] using exhaustedPhase_calls ctx st
  | n + 1, st => by
    have hc := oneIter_calls ctx st
    cases ho : oneIter ctx st with
    | next st2 =>
      rw [ho] at hc
      simp only [stepState] at hc
      have hrec := runLoop_calls ctx n st2
      simp only [runLoop, ho]
      omega
    | answer s st2 =>
      rw [ho] at hc
      simp only [stepState] at hc
      simp only [runLoop, ho]
      omega
    | fatal m st2 =>
      rw [ho] at hc
      simp only [stepState] at hc
      simp only [runLoop, ho]
      omega

/-- The exhaustion phase always returns an answer, never an exception. -/
theorem exhaustedPhase_not_fatal (ctx : Ctx) (st : OState) :
    ∀ m, (exhaustedPhase ctx st).1 ≠ .fatal m := by
  intro m
  unfold exhaustedPhase
  by_cases hd : hasData st.msgs
  · cases hm : ctx.model st.calls with
    | ok parts => simp [hd, hm]
    | err m2 => simp [hd, hm]
  · simp [hd]

/-- A successful model call never makes the iteration propagate an exception. -/
theorem oneIter_model_ok_not_fatal (ctx : Ctx) (st : OState) (ps : List RPart)
    (hm : ctx.model st.calls = .ok ps) :
    ∀ m st2, oneIter ctx st ≠ .fatal m st2 := by
  intro m st2
  cases hb : buildAssistant ps with
  | mk content t =>
    cases t with
    | none => simp [oneIter, hm, hb]
    | some tr =>
      obtain ⟨id, name, inp⟩ := tr
      simp [oneIter, hm, hb]

/-- When every model call succeeds, no run outcome is a propagated exception,
whatever the tool host does. -/
theorem runLoop_no_fatal (ctx : Ctx) (hok : ∀ i, ∃ ps, ctx.model i = .ok ps) :
    ∀ (n : Nat) (st : OState) (m : Str), (runLoop ctx n st).1 ≠ .fatal m
  | 0, st, m => by
    have := exhaustedPhase_not_fatal ctx st m
    simpa [runLoop] using this
  | n + 1, st, m => by
    obtain ⟨ps, hm⟩ := hok st.calls
    cases ho : oneIter ctx st with
    | next st2 => simpa [runLoop, ho] using runLoop_no_fatal ctx hok n st2 m
    | answer s st2 => simp [runLoop, ho]
    | fatal m2 st2 => exact absurd ho (oneIter_model_ok_not_fatal ctx st ps hm m2 st2)

/-- On well-formed conversations the salvage scan collects exactly the text
parts of the assistant messages, without crashing. -/
theorem salvage_eq (msgs : List Msg) (h : assistantPartsOnly msgs = true) :
    salvageTexts msgs = some (assistantTexts msgs) := by
  induction msgs with
  | nil => rfl
  | cons m rest ih =>
    simp only [assistantPartsOnly, List.all_cons, Bool.and_eq_true] at h
    have ih2 := ih (by simp [assistantPartsOnly, h.2])
    cases hr : m.role with
    | assistant =>
      cases hc : m.content with
      | ofParts ps => simp [salvageTexts, assistantTexts, hr, hc, ih2]
      | ofStr s2 =>
        have hs : s2.isEmpty = true := by
          rw [hr, hc] at h
          exact h.1
        simp [salvageTexts, assistantTexts, hr, hc, hs, ih2]
    | user =>
      cases hc : m.content with
      | ofParts ps => simp [salvageTexts, assistantTexts, hr, hc, ih2]
      | ofStr s2 => simp [salvageTexts, assistantTexts, hr, hc, ih2]

/-- C2 (amended): the orchestrator issues at most `max_iterations + 1` model
calls and terminates; whenever no model-call failure propagates (in particular
whenever every model call succeeds), it returns a string — which may be empty
when the model's final response contains no non-empty text part. -/
theorem C2_model_call_bound (ctx : Ctx) (messages : List Msg) (sys : Str) (n : Nat) :
    (call_llm_with_tools ctx messages sys n).2.calls ≤ n + 1 ∧
    ((∀ i, ∃ ps, ctx.model i = .ok ps) →
      ∃ s, (call_llm_with_tools ctx messages sys n).1 = .answer s) := by
  constructor
  · have := runLoop_calls ctx n { msgs := messages, calls := 0, snaps := [], dlog := [] }
    simpa [call_llm_with_tools] using this
  · intro hok
    cases h : (call_llm_with_tools ctx messages sys n).1 with
    | answer s => exact ⟨s, rfl⟩
    | fatal m =>
      exact absurd (by simpa [call_llm_with_tools] using h)
        (runLoop_no_fatal ctx hok n { msgs := messages, calls := 0, snaps := [], dlog := [] } m)

/-- C2 witness: a text-only model makes a three-iteration run answer within the
call budget. -/
theorem C2_witness :
    (call_llm_with_tools ⟨fun _ => .ok [.text (("hi").data)], fun _ => .ok .null⟩
        [{ role := .user, content := .ofStr (("q").data) }] [] 2).2.calls ≤ 3 ∧
    ∃ s, (call_llm_with_tools ⟨fun _ => .ok [.text (("hi").data)], fun _ => .ok .null⟩
        [{ role := .user, content := .ofStr (("q").data) }] [] 2).1 = .answer s :=
  ⟨(C2_model_call_bound ⟨fun _ => .ok [.text (("hi").data)], fun _ => .ok .null⟩
      [{ role := .user, content := .ofStr (("q").data) }] [] 2).1,
   (C2_model_call_bound ⟨fun _ => .ok [.text (("hi").data)], fun _ => .ok .null⟩
      [{ role := .user, content := .ofStr (("q").data) }] [] 2).2
      (fun _ => ⟨[.text (("hi").data)], rfl⟩)⟩

/-- C2 counterexample: when the model's response contains no content parts at
all, the run returns the EMPTY string — refuting the claim that the
orchestrator always returns a non-empty string. -/
theorem C2_counterexample :
    (call_llm_with_tools ⟨fun _ => .ok [], fun _ => .ok .null⟩
        [{ role := .user, content := .ofStr (("hi").data) }] [] 3).1 =
      .answer [] := rfl

/-- C3 (amended): at most the first tool-use block of a model response is
dispatched (exactly one `(name, input)` enters the dispatch log), and every
content part after that block — including subsequent tool-use parts — is
discarded: the assistant message recorded into the conversation contains only
the truthy texts before the block and the block itself. -/
theorem C3_first_tool_dispatch (ctx : Ctx) (st : OState) (pre post : List RPart)
    (id name inp : Str)
    (hm : ctx.model st.calls = .ok (pre ++ .toolUse id name inp :: post))
    (hpre : ∀ i2 n2 p2, RPart.toolUse i2 n2 p2 ∉ pre) :
    oneIter ctx st = .next
      { msgs := st.msgs ++
          [{ role := .assistant,
             content := .ofParts ((collectTexts pre).map CPart.text ++ [.toolUse id name inp]) },
           { role := .user,
             content := .ofParts [.toolResult id (toolResultContent (ctx.tool st.dlog.length))] }],
        calls := st.calls + 1,
        snaps := st.snaps ++ [(st.msgs, true)],
        dlog := st.dlog ++ [(name, inp)] } := by
  unfold oneIter
  rw [hm]
  simp only [buildAssistant_first_tool pre post id name inp hpre]

/-- C3 witness: a text block followed by a tool-use block and a trailing text
block dispatches the tool-use block and drops the trailing text. -/
theorem C3_witness :
    oneIter ⟨fun _ => .ok [.text (("t").data),
        .toolUse (("A").data) (("tool1").data) (("i1").data), .text (("after").data)],
      fun _ => .ok .null⟩
      { msgs := [{ role := .user, content := .ofStr (("q").data) }],
        calls := 0, snaps := [], dlog := [] } = .next
      { msgs := [{ role := .user, content := .ofStr (("q").data) },
          { role := .assistant, content := .ofParts [.text (("t").data),
              .toolUse (("A").data) (("tool1").data) (("i1").data)] },
          { role := .user, content := .ofParts
              [.toolResult (("A").data) (("null").data)] }],
        calls := 1,
        snaps := [([{ role := .user, content := .ofStr (("q").data) }], true)],
        dlog := [((("tool1").data), (("i1").data))] } := by
  have h := C3_first_tool_dispatch
    ⟨fun _ => .ok [.text (("t").data),
        .toolUse (("A").data) (("tool1").data) (("i1").data), .text (("after").data)],
      fun _ => .ok .null⟩
    { msgs := [{ role := .user, content := .ofStr (("q").data) }],
      calls := 0, snaps := [], dlog := [] }
    [.text (("t").data)] [.text (("after").data)]
    (("A").data) (("tool1").data) (("i1").data) rfl
    (fun i2 n2 p2 hmem => by simp at hmem)
  exact h

/-- C3 counterexample: a response carrying two tool-use blocks.  The claim says
the second block is still recorded into the assistant message; in fact the loop
breaks at the first one, and the assistant message appended to the conversation
contains only the first block — the second is dropped entirely. -/
theorem C3_counterexample :
    oneIter ⟨fun _ => .ok [.toolUse (("A").data) (("tool1").data) (("i1").data),
        .toolUse (("B").data) (("tool2").data) (("i2").data)],
      fun _ => .ok .null⟩
      { msgs := [{ role := .user, content := .ofStr (("q").data) }],
        calls := 0, snaps := [], dlog := [] } = .next
      { msgs := [{ role := .user, content := .ofStr (("q").data) },
          { role := .assistant, content := .ofParts
              [.toolUse (("A").data) (("tool1").data) (("i1").data)] },
          { role := .user, content := .ofParts
              [.toolResult (("A").data) (("null").data)] }],
        calls := 1,
        snaps := [([{ role := .user, content := .ofStr (("q").data) }], true)],
        dlog := [((("tool1").data), (("i1").data))] } := rfl

/-- C5: when a model call raises and the message is classified as rate
limiting (`"429"` or `"rate limit"` in it), the run returns the concatenation
of all text parts of the assistant messages of the conversation, or the fixed
apology if there are none; a failure not so classified propagates.  The
hypothesis restricts assistant contents to part lists, the only shape the data
model admits and the loop produces. -/
theorem C5_rate_limit (ctx : Ctx) (st : OState) (m : Str) (n : Nat)
    (hmodel : ctx.model st.calls = .err m)
    (hwf : assistantPartsOnly st.msgs = true) :
    (rateLimitedErr m = true →
      (runLoop ctx (n + 1) st).1 =
        .answer (if (assistantTexts st.msgs).isEmpty then apologyMsg
          else joinNL (assistantTexts st.msgs))) ∧
    (rateLimitedErr m = false →
      (runLoop ctx (n + 1) st).1 = .fatal m) := by
  constructor
  · intro hr
    have hstep : oneIter ctx st =
        .answer (if (assistantTexts st.msgs).isEmpty then apologyMsg
          else joinNL (assistantTexts st.msgs))
        { st with calls := st.calls + 1, snaps := st.snaps ++ [(st.msgs, true)] } := by
      unfold oneIter
      rw [hmodel, salvage_eq st.msgs hwf]
      simp [hr]
    simp [runLoop, hstep]
  · intro hr
    have hstep : oneIter ctx st = .fatal m
        { st with calls := st.calls + 1, snaps := st.snaps ++ [(st.msgs, true)] } := by
      unfold oneIter
      rw [hmodel]
      simp [hr]
    simp [runLoop, hstep]

/-- C5 witness: a 429 failure salvages the one assistant text present; a
non-rate-limit failure propagates. -/
theorem C5_witness :
    (runLoop ⟨fun _ => .err (("429 too many requests").data), fun _ => .ok .null⟩ 1
      { msgs := [{ role := .user, content := .ofStr (("q").data) },
          { role := .assistant, content := .ofParts [.text (("partial").data)] }],
        calls := 0, snaps := [], dlog := [] }).1 = .answer (("partial").data) ∧
    (runLoop ⟨fun _ => .err (("boom").data), fun _ => .ok .null⟩ 1
      { msgs := [{ role := .user, content := .ofStr (("q").data) }],
        calls := 0, snaps := [], dlog := [] }).1 = .fatal (("boom").data) := by
  constructor
  · exact (C5_rate_limit ⟨fun _ => .err (("429 too many requests").data), fun _ => .ok .null⟩
      { msgs := [{ role := .user, content := .ofStr (("q").data) },
          { role := .assistant, content := .ofParts [.text (("partial").data)] }],
        calls := 0, snaps := [], dlog := [] }
      (("429 too many requests").data) 0 rfl (by decide)).1 (by decide)
  · exact (C5_rate_limit ⟨fun _ => .err (("boom").data), fun _ => .ok .null⟩
      { msgs := [{ role := .user, content := .ofStr (("q").data) }],
        calls := 0, snaps := [], dlog := [] }
      (("boom").data) 0 rfl (by decide)).2 (by decide)

/-- C8: an exception raised while dispatching a tool is caught and turned into
a `tool_result` content part carrying the `{"error": str(e)}` payload, after
which the loop continues with the next iteration; and tool failures never
propagate out of a run — with every model call succeeding, no run outcome is a
propagated exception, whatever the tool host raises. -/
theorem C8_tool_failure_absorbed (ctx : Ctx) (st : OState) (pre post : List RPart)
    (id name inp m : Str)
    (hm : ctx.model st.calls = .ok (pre ++ .toolUse id name inp :: post))
    (hpre : ∀ i2 n2 p2, RPart.toolUse i2 n2 p2 ∉ pre)
    (htool : ctx.tool st.dlog.length = .exn m) :
    oneIter ctx st = .next
      { msgs := st.msgs ++
          [{ role := .assistant,
             content := .ofParts ((collectTexts pre).map CPart.text ++ [.toolUse id name inp]) },
           { role := .user,
             content := .ofParts [.toolResult id (json_dumps (errPayload m))] }],
        calls := st.calls + 1,
        snaps := st.snaps ++ [(st.msgs, true)],
        dlog := st.dlog ++ [(name, inp)] } ∧
    ((∀ i, ∃ ps2, ctx.model i = .ok ps2) →
      ∀ fuel st0 m2, (runLoop ctx fuel st0).1 ≠ .fatal m2) := by
  constructor
  · unfold oneIter
    rw [hm]
    simp only [buildAssistant_first_tool pre post id name inp hpre, htool, toolResultContent]
  · intro hok fuel st0 m2
    exact runLoop_no_fatal ctx hok fuel st0 m2

/-- C8 witness: a raising tool host yields the error-payload tool result and
the loop goes on; the run with a text-answering model never propagates. -/
theorem C8_witness :
    oneIter ⟨fun _ => .ok [.toolUse (("A").data) (("tool1").data) (("i1").data)],
        fun _ => .exn (("ssl error").data)⟩
      { msgs := [{ role := .user, content := .ofStr (("q").data) }],
        calls := 0, snaps := [], dlog := [] } = .next
      { msgs := [{ role := .user, content := .ofStr (("q").data) },
          { role := .assistant, content := .ofParts
              [.toolUse (("A").data) (("tool1").data) (("i1").data)] },
          { role := .user, content := .ofParts
              [.toolResult (("A").data)
                (("\x7b\"error\": \"ssl error\"\x7d").data)] }],
        calls := 1,
        snaps := [([{ role := .user, content := .ofStr (("q").data) }], true)],
        dlog := [((("tool1").data), (("i1").data))] } ∧
    ∀ m2, (runLoop ⟨fun _ => .ok [.toolUse (("A").data) (("tool1").data) (("i1").data)],
        fun _ => .exn (("ssl error").data)⟩ 2
      { msgs := [{ role := .user, content := .ofStr (("q").data) }],
        calls := 0, snaps := [], dlog := [] }).1 ≠ .fatal m2 := by
  have h := C8_tool_failure_absorbed
    ⟨fun _ => .ok [.toolUse (("A").data) (("tool1").data) (("i1").data)],
        fun _ => .exn (("ssl error").data)⟩
    { msgs := [{ role := .user, content := .ofStr (("q").data) }],
      calls := 0, snaps := [], dlog := [] }
    [] [] (("A").data) (("tool1").data) (("i1").data) (("ssl error").data)
    rfl (fun i2 n2 p2 hmem => by simp at hmem) rfl
  exact ⟨h.1, fun m2 => h.2
    (fun _ => ⟨[.toolUse (("A").data) (("tool1").data) (("i1").data)], rfl⟩) 2 _ m2⟩

/-- Text parts are never tool results. -/
theorem any_toolResult_false (ps : List CPart) (h : ps.all partIsText = true) :
    ps.any partIsToolResult = false := by
  cases ha : ps.any partIsToolResult with
  | false => rfl
  | true =>
    obtain ⟨p, hp, hTR⟩ := List.any_eq_true.mp ha
    have := List.all_eq_true.mp h p hp
    cases p <;> simp [partIsText, partIsToolResult] at this hTR

/-- Text parts are never data-carrying tool results. -/
theorem any_dataResult_false (ps : List CPart) (h : ps.all partIsText = true) :
    ps.any partIsDataResult = false := by
  cases ha : ps.any partIsDataResult with
  | false => rfl
  | true =>
    obtain ⟨p, hp, hDR⟩ := List.any_eq_true.mp ha
    have := List.all_eq_true.mp h p hp
    cases p <;> simp [partIsText, partIsDataResult] at this hDR

/-- A conversation whose parts are all text has no data for the `has_data`
scans to find. -/
theorem hasData_false_of_text (msgs : List Msg)
    (h : (FlatParts msgs).all partIsText = true) : hasData msgs = false := by
  induction msgs with
  | nil => rfl
  | cons m rest ih =>
    have hsplit : (FlatParts [m]).all partIsText = true ∧
        (FlatParts rest).all partIsText = true := by
      have : FlatParts (m :: rest) = FlatParts [m] ++ FlatParts rest := by
        simpa using FlatParts_append [m] rest
      rw [this, List.all_append, Bool.and_eq_true] at h
      exact h
    have ihr := ih hsplit.2
    have hm : (msgUserParts m).all partIsText = true := by
      cases hrr : m.role with
      | assistant => simp [msgUserParts, hrr]
      | user =>
        cases hcc : m.content with
        | ofStr s => simp [msgUserParts, hrr, hcc]
        | ofParts ps =>
          have hfp : FlatParts [m] = ps := by simp [FlatParts, hcc]
          have h1 := hsplit.1
          rw [hfp] at h1
          simpa [msgUserParts, hrr, hcc] using h1
    simp only [hasData, hasDataPassOne, hasDataPassTwo, List.any_cons,
      Bool.or_eq_false_iff] at ihr ⊢
    refine ⟨⟨?_, ihr.1⟩, ⟨?_, ihr.2⟩⟩
    · exact any_dataResult_false _ hm
    · exact any_toolResult_false _ hm

/-- An iteration whose model response requests a tool appends the assistant
message and the matching tool-result message and goes on. -/
theorem oneIter_tool_next (ctx : Ctx) (st : OState)
    (hreq : modelRequestsTool (ctx.model st.calls) = true) :
    ∃ content id res st2, oneIter ctx st = .next st2 ∧
      st2.msgs = st.msgs ++
        [{ role := .assistant, content := .ofParts content },
         { role := .user, content := .ofParts [.toolResult id res] }] ∧
      st2.calls = st.calls + 1 ∧
      st2.snaps = st.snaps ++ [(st.msgs, true)] := by
  cases hm : ctx.model st.calls with
  | err m => rw [hm] at hreq; simp [modelRequestsTool] at hreq
  | ok parts =>
    rw [hm] at hreq
    simp only [modelRequestsTool] at hreq
    cases hb : buildAssistant parts with
    | mk content t =>
      cases t with
      | none => rw [hb] at hreq; simp at hreq
      | some tr =>
        obtain ⟨id, name, inp⟩ := tr
        refine ⟨content, id, toolResultContent (ctx.tool st.dlog.length),
          { msgs := st.msgs ++
              [{ role := .assistant, content := .ofParts content },
               { role := .user, content := .ofParts
                  [.toolResult id (toolResultContent (ctx.tool st.dlog.length))] }],
            calls := st.calls + 1,
            snaps := st.snaps ++ [(st.msgs, true)],
            dlog := st.dlog ++ [(name, inp)] }, ?_, rfl, rfl, rfl⟩
        unfold oneIter
        rw [hm]
        simp only [hb]

/-- When the first `n` model calls all request a tool, the loop runs its whole
budget and falls into the exhaustion phase, having appended a tool result per
iteration. -/
theorem runLoop_exhausts (ctx : Ctx) : ∀ (n : Nat) (st : OState),
    (∀ i, i < n → modelRequestsTool (ctx.model (st.calls + i)) = true) →
    ∃ st2, runLoop ctx n st = exhaustedPhase ctx st2 ∧
      st2.calls = st.calls + n ∧
      st2.snaps.length = st.snaps.length + n ∧
      (∃ ext : List Msg, st2.msgs = st.msgs ++ ext) ∧
      (0 < n → hasDataPassTwo st2.msgs = true)
  | 0, st, _ =>
    ⟨st, by simp [runLoop], by simp, by simp, ⟨[], by simp⟩, fun h => absurd h (by omega)⟩
  | n + 1, st, h => by
    have h0 := h 0 (Nat.succ_pos n)
    rw [Nat.add_zero] at h0
    obtain ⟨content, id, res, st2, hstep, hmsgs, hcalls, hsnaps⟩ := oneIter_tool_next ctx st h0
    obtain ⟨st3, e1, e2, e3, ⟨ext, e4⟩, _⟩ := runLoop_exhausts ctx n st2 (fun i hi => by
      have h2 := h (i + 1) (by omega)
      rw [show st.calls + (i + 1) = st2.calls + i from by omega] at h2
      exact h2)
    refine ⟨st3, ?_, by omega, ?_, ?_, ?_⟩
    · simpa [runLoop, hstep] using e1
    · rw [e3, hsnaps]
      simp
      omega
    · exact ⟨[{ role := .assistant, content := .ofParts content },
        { role := .user, content := .ofParts [.toolResult id res] }] ++ ext,
        by rw [e4, hmsgs, List.append_assoc]⟩
    · intro _
      rw [e4, hmsgs]
      simp [hasDataPassTwo, List.any_append, msgUserParts, partIsToolResult]

/-- C4 (amended): when the iteration budget is exhausted and the conversation
holds at least one tool result, the orchestrator appends the plain-string
analysis request, issues exactly one more model call with no tools offered, and
returns that call's text when it yields any non-empty text part — otherwise
(the call fails or yields no text) the fixed fallback sentence; when the
conversation holds no tool result it returns the fixed fallback sentence with
no extra call. -/
theorem C4_exhaustion (ctx : Ctx) (messages : List Msg) (sys : Str) (n : Nat)
    (hinit : (FlatParts messages).all partIsText = true)
    (htools : ∀ i, i < n → modelRequestsTool (ctx.model i) = true) :
    (0 < n →
      (call_llm_with_tools ctx messages sys n).2.calls = n + 1 ∧
      (call_llm_with_tools ctx messages sys n).2.snaps.length = n + 1 ∧
      ((call_llm_with_tools ctx messages sys n).2.snaps.getLast?).map Prod.snd =
        some false ∧
      ((call_llm_with_tools ctx messages sys n).2.msgs).getLast? =
        some { role := .user, content := .ofStr analysisPrompt } ∧
      (call_llm_with_tools ctx messages sys n).1 = .answer (match ctx.model n with
        | .ok parts =>
          if (collectTexts parts).isEmpty then fixedFallback
          else joinNL (collectTexts parts)
        | .err _ => fixedFallback)) ∧
    (n = 0 →
      (call_llm_with_tools ctx messages sys n).1 = .answer fixedFallback ∧
      (call_llm_with_tools ctx messages sys n).2.calls = 0) := by
  obtain ⟨st2, e1, e2, e3, ⟨ext, e4⟩, e5⟩ := runLoop_exhausts ctx n
    { msgs := messages, calls := 0, snaps := [], dlog := [] }
    (by simpa using htools)
  have hrun : call_llm_with_tools ctx messages sys n = exhaustedPhase ctx st2 := by
    simpa [call_llm_with_tools] using e1
  constructor
  · intro hn
    have e2n : st2.calls = n := by simpa using e2
    have e3n : st2.snaps.length = n := by simpa using e3
    have hd : hasData st2.msgs = true := by
      simp [hasData, e5 hn]
    rw [hrun]
    cases hm : ctx.model n with
    | ok parts =>
      have hex : exhaustedPhase ctx st2 =
          (.answer (if (collectTexts parts).isEmpty then fixedFallback
            else joinNL (collectTexts parts)),
           { st2 with
             msgs := st2.msgs ++ [{ role := .user, content := .ofStr analysisPrompt }],
             calls := st2.calls + 1,
             snaps := st2.snaps ++
               [(st2.msgs ++ [{ role := .user, content := .ofStr analysisPrompt }],
                 false)] }) := by
        unfold exhaustedPhase
        rw [e2n, hm]
        simp [hd]
      rw [hex]
      refine ⟨by simp [e2n], by simp [e3n], ?_, ?_, rfl⟩
      · simp [List.getLast?_concat]
      · simp [List.getLast?_concat]
    | err m =>
      have hex : exhaustedPhase ctx st2 =
          (.answer fixedFallback,
           { st2 with
             msgs := st2.msgs ++ [{ role := .user, content := .ofStr analysisPrompt }],
             calls := st2.calls + 1,
             snaps := st2.snaps ++
               [(st2.msgs ++ [{ role := .user, content := .ofStr analysisPrompt }],
                 false)] }) := by
        unfold exhaustedPhase
        rw [e2n, hm]
        simp [hd]
      rw [hex]
      refine ⟨by simp [e2n], by simp [e3n], ?_, ?_, rfl⟩
      · simp [List.getLast?_concat]
      · simp [List.getLast?_concat]
  · intro hn
    subst hn
    have hrun0 : call_llm_with_tools ctx messages sys 0 =
        exhaustedPhase ctx { msgs := messages, calls := 0, snaps := [], dlog := [] } := by
      simp [call_llm_with_tools, runLoop]
    have hd : hasData messages = false := hasData_false_of_text messages hinit
    rw [hrun0]
    unfold exhaustedPhase
    simp [hd]

/-- C4 witness: one tool-requesting iteration followed by a text-yielding
summarization call: two model calls total, the last with no tools offered,
after appending the plain-string analysis request; the run returns the final
call's text. -/
theorem C4_witness :
    (call_llm_with_tools ⟨fun i => if i = 0
        then .ok [.toolUse (("A").data) (("t1").data) (("i1").data)]
        else .ok [.text (("summary").data)], fun _ => .ok .null⟩
      [{ role := .user, content := .ofStr (("q").data) }] [] 1).2.calls = 2 ∧
    ((call_llm_with_tools ⟨fun i => if i = 0
        then .ok [.toolUse (("A").data) (("t1").data) (("i1").data)]
        else .ok [.text (("summary").data)], fun _ => .ok .null⟩
      [{ role := .user, content := .ofStr (("q").data) }] [] 1).2.snaps.getLast?).map
        Prod.snd = some false ∧
    (call_llm_with_tools ⟨fun i => if i = 0
        then .ok [.toolUse (("A").data) (("t1").data) (("i1").data)]
        else .ok [.text (("summary").data)], fun _ => .ok .null⟩
      [{ role := .user, content := .ofStr (("q").data) }] [] 1).1 =
        .answer (("summary").data) := by
  have h := (C4_exhaustion ⟨fun i => if i = 0
        then .ok [.toolUse (("A").data) (("t1").data) (("i1").data)]
        else .ok [.text (("summary").data)], fun _ => .ok .null⟩
      [{ role := .user, content := .ofStr (("q").data) }] [] 1
      (by decide)
      (fun i hi => by
        have : i = 0 := by omega
        subst this
        decide)).1 (by omega)
  exact ⟨h.1, h.2.2.1, h.2.2.2.2⟩

/-- C4 counterexample: iterations exhausted with a tool result present, but
the extra summarization call returns no text part.  The claim says the
orchestrator returns that call's text (the empty string); the code returns the
fixed fallback sentence instead. -/
theorem C4_counterexample :
    (call_llm_with_tools ⟨fun i => if i = 0
        then .ok [.toolUse (("A").data) (("t1").data) (("i1").data)]
        else .ok [], fun _ => .ok .null⟩
      [{ role := .user, content := .ofStr (("q").data) }] [] 1).1 =
        .answer fixedFallback ∧
    joinNL (collectTexts []) = [] ∧ fixedFallback ≠ [] := by
  refine ⟨rfl, rfl, by decide⟩

/-- C9: starting from a conversation whose parts are all plain text, at every
model call the conversation snapshot is properly paired — in the flattened part
sequence every tool-use part appended is immediately followed by exactly one
tool-result part carrying its id, and tool results appear nowhere else — and in
the final conversation the tool-result count and the tool-use count both equal
the number of dispatched tool calls. -/
theorem C9_tool_result_pairing (ctx : Ctx) (messages : List Msg) (sys : Str) (n : Nat)
    (hinit : (FlatParts messages).all partIsText = true) :
    (∀ p ∈ (call_llm_with_tools ctx messages sys n).2.snaps,
      pairedFlat (FlatParts p.1) = true) ∧
    pairedFlat (FlatParts (call_llm_with_tools ctx messages sys n).2.msgs) = true ∧
    countTR (FlatParts (call_llm_with_tools ctx messages sys n).2.msgs) =
      (call_llm_with_tools ctx messages sys n).2.dlog.length ∧
    countTU (FlatParts (call_llm_with_tools ctx messages sys n).2.msgs) =
      (call_llm_with_tools ctx messages sys n).2.dlog.length := by
  have hinv : ConvInv { msgs := messages, calls := 0, snaps := [], dlog := [] } := by
    refine ⟨pairedFlat_of_text _ hinit, ?_, ?_, ?_⟩
    · rw [countTR_of_text _ hinit]
      rfl
    · rw [countTU_of_text _ hinit]
      rfl
    · intro p hp
      simp at hp
  obtain ⟨h1, h2, h3, h4⟩ := runLoop_inv ctx n _ hinv
  exact ⟨fun p hp => h4 p (by simpa [call_llm_with_tools] using hp),
    by simpa [call_llm_with_tools] using h1,
    by simpa [call_llm_with_tools] using h2,
    by simpa [call_llm_with_tools] using h3⟩

/-- C9 witness: a run with one dispatched tool has exactly one tool result and
one tool use in its final conversation, and both snapshots are paired. -/
theorem C9_witness :
    countTR (FlatParts (call_llm_with_tools ⟨fun i => if i = 0
        then .ok [.toolUse (("A").data) (("t1").data) (("i1").data)]
        else .ok [.text (("done").data)], fun _ => .ok .null⟩
      [{ role := .user, content := .ofStr (("q").data) }] [] 2).2.msgs) =
    (call_llm_with_tools ⟨fun i => if i = 0
        then .ok [.toolUse (("A").data) (("t1").data) (("i1").data)]
        else .ok [.text (("done").data)], fun _ => .ok .null⟩
      [{ role := .user, content := .ofStr (("q").data) }] [] 2).2.dlog.length ∧
    pairedFlat (FlatParts (call_llm_with_tools ⟨fun i => if i = 0
        then .ok [.toolUse (("A").data) (("t1").data) (("i1").data)]
        else .ok [.text (("done").data)], fun _ => .ok .null⟩
      [{ role := .user, content := .ofStr (("q").data) }] [] 2).2.msgs) = true := by
  have h := C9_tool_result_pairing ⟨fun i => if i = 0
        then .ok [.toolUse (("A").data) (("t1").data) (("i1").data)]
        else .ok [.text (("done").data)], fun _ => .ok .null⟩
      [{ role := .user, content := .ofStr (("q").data) }] [] 2 (by decide)
  exact ⟨h.2.2.1, h.2.1⟩
